import Mathlib

/-!
Verification of the chunked upload engine (`boxsdk/util/chunked_uploader.py`).

The engine (`ChunkedUploader`) is embedded shallowly:

* The mutable object state (`_content_stream`, `_file_size`, `_part_array`,
  `_sha1`, `_part_definitions`, `_inflight_part`, `_is_aborted`) becomes the
  record `EngineState`; every method becomes an explicit state-passing
  function.  Python exceptions become `Except` results that carry the mutated
  state (the Python object survives an exception with its fields as they were
  at the raise point, which matters for `resume`).
* The collaborator (`UploadSession`) is a record of scripted pure behaviour:
  `total_parts`, `part_size`, a `get_parts` listing, the response of a
  successful `upload_part_bytes`, which offsets make `upload_part_bytes`
  raise, and the outcome of the remote `abort`.
* The rolling SHA-1 accumulator is modelled by the sequence of bytes fed to
  it; the real digest is a pure function of exactly that sequence, so digest
  equality and inequality statements are stated on the fed sequence.
* The content stream is a finite list of bytes plus a finite script of read
  events; a read may return `None` (Python: no bytes ready yet), a bounded
  number of bytes, or empty (exhaustion).  After the script runs out the
  stream cooperates and returns exactly what is requested.
* `upload_part_bytes` invocations are recorded in a ghost `log` field so that
  which-offsets-were-uploaded claims are observable; no engine logic reads it.
-/

namespace BoxChunked

/-- A byte of stream content, modelled as a natural number. -/
abbrev Byte := Nat

/-- A committed part record: the `{offset, size, id/sha}` dictionary returned
by `upload_session.upload_part_bytes` and `upload_session.get_parts`. -/
structure PartRecord where
  offset : Nat
  size : Nat
  partId : Nat
deriving DecidableEq

/-- Ghost record of one `upload_session.upload_part_bytes` invocation. -/
structure UploadCall where
  offset : Nat
  chunk : List Byte
deriving DecidableEq

/-- One scripted result of a `content_stream.read(n)` call.
`notReady` models Python `None` (no bytes ready currently, try again);
`give k` models a read that yields up to `k` of the requested bytes
(possibly zero, which Python treats as exhaustion). -/
inductive ReadEvent where
  | notReady : ReadEvent
  | give : Nat → ReadEvent
deriving DecidableEq

/-- `true` on every event that is not a `notReady` (`None`) read. -/
def isRealRead : ReadEvent → Bool
  | ReadEvent.notReady => false
  | ReadEvent.give _ => true

/-- The content stream: remaining bytes plus a finite script of read events.
Once the script is exhausted the stream simply returns the requested bytes
(or fewer, then empty, at end of data). -/
structure ByteStream where
  data : List Byte
  events : List ReadEvent
deriving DecidableEq

/-- The chunk-assembly loop of `ChunkedUploader._get_next_part`
(`chunked_uploader.py` lines 121-133): starting from `needed` missing bytes,
read repeatedly; a `None` result continues the loop, an empty result breaks
(stream exhausted), otherwise the bytes are appended and the missing count
shrinks, until zero bytes are missing.  Returns the assembled chunk and the
stream as it is left. -/
def fillChunk : List ReadEvent → List Byte → Nat → List Byte × ByteStream
  | events, data, 0 => ([], ⟨data, events⟩)
  | [], data, n + 1 => (data.take (n + 1), ⟨data.drop (n + 1), []⟩)
  | ReadEvent.notReady :: rest, data, n + 1 => fillChunk rest data (n + 1)
  | ReadEvent.give k :: rest, data, n + 1 =>
      let m := min k (n + 1)
      let got := data.take m
      if got.isEmpty then ([], ⟨data, rest⟩)
      else
        let r := fillChunk rest (data.drop m) (n + 1 - got.length)
        (got ++ r.1, r.2)

/-- `dict.get` on the `_part_definitions` mapping, modelled as an
association list where the most recent binding for a key wins
(as with Python dict assignment). -/
def dictGet (k : Nat) : List (Nat × PartRecord) → Option PartRecord
  | [] => none
  | (k2, v) :: rest => if k = k2 then some v else dictGet k rest

/-- `InflightPart` (`chunked_uploader.py` lines 137-161): the offset and raw
bytes of the part currently being transferred.  The session back-reference
and total size are supplied by the ambient `SessionModel` / `EngineState`. -/
structure InflightPart where
  offset : Nat
  chunk : List Byte
deriving DecidableEq

/-- The errors the engine can raise: the aborted-state `BoxException` of
`start`/`resume`, the `assert` in `_get_next_part`, and exceptions propagating
from the collaborator's `upload_part_bytes` / `abort`. -/
inductive BoxErr where
  | abortedError : BoxErr
  | assertionError : BoxErr
  | uploadError : BoxErr
  | networkError : BoxErr
deriving DecidableEq

/-- The mutable fields of a `ChunkedUploader` object, plus the ghost `log` of
`upload_part_bytes` invocations. `sha1` is the sequence of bytes fed to the
rolling SHA-1 accumulator so far. -/
structure EngineState where
  contentStream : Option ByteStream
  fileSize : Nat
  partArray : List PartRecord
  sha1 : List Byte
  partDefinitions : List (Nat × PartRecord)
  inflightPart : Option InflightPart
  isAborted : Bool
  log : List UploadCall
deriving DecidableEq

/-- `ChunkedUploader.__init__`: a freshly constructed engine bound to a
content stream and a file size. -/
def initState (stream : ByteStream) (fileSize : Nat) : EngineState :=
  { contentStream := some stream
    fileSize := fileSize
    partArray := []
    sha1 := []
    partDefinitions := []
    inflightPart := none
    isAborted := false
    log := [] }

/-- The scripted behaviour of the external `UploadSession` collaborator for
one engine call: its `total_parts` and `part_size` attributes, the listing
`get_parts()` returns, the record a successful `upload_part_bytes` returns,
which offsets make `upload_part_bytes` raise, and whether/what the remote
`abort()` raises/returns. -/
structure SessionModel where
  totalParts : Nat
  partSize : Nat
  parts : List PartRecord
  uploadResult : List Byte → Nat → Nat → PartRecord
  uploadFails : Nat → Bool
  abortRaises : Bool
  abortResult : Bool

/-- The commit call: the engine hands `commit` the digest and the ordered
part list; the resulting file object is identified with that pair. -/
abbrev CommitResult := List Byte × List PartRecord

/-- Outcome of an engine operation: either an exception (with the object
state at the raise point) or a result (with the final object state). -/
abbrev EngineM (α : Type) := Except (BoxErr × EngineState) (α × EngineState)

/-- The tail of one iteration of `ChunkedUploader._upload` after the uploaded
part is determined: clear the in-flight marker, append the record to
`_part_array` and enter it into `_part_definitions` (lines 105-109). -/
def finishStep (st : EngineState) (offset : Nat) (rec : PartRecord) : EngineState :=
  { st with
    inflightPart := none
    partArray := st.partArray ++ [rec]
    partDefinitions := (offset, rec) :: st.partDefinitions }

/-- One iteration of `ChunkedUploader._upload` from the point where
`next_part` is known (lines 100-109): set it in flight, feed its bytes to the
rolling digest, reuse the cached record for its offset if present, otherwise
call `upload_part_bytes` (which is logged and may raise). -/
def stepWith (sess : SessionModel) (st : EngineState) (p : InflightPart) :
    Except (BoxErr × EngineState) EngineState :=
  let st1 := { st with inflightPart := some p, sha1 := st.sha1 ++ p.chunk }
  match dictGet p.offset st1.partDefinitions with
  | some rec => Except.ok (finishStep st1 p.offset rec)
  | none =>
      let st2 := { st1 with log := st1.log ++ [⟨p.offset, p.chunk⟩] }
      if sess.uploadFails p.offset then Except.error (BoxErr.uploadError, st2)
      else Except.ok (finishStep st2 p.offset (sess.uploadResult p.chunk p.offset st2.fileSize))

/-- One full iteration of `ChunkedUploader._upload` (lines 98-109): take the
retained in-flight part if any, otherwise read the next chunk from the
stream at offset `len(part_array) * part_size` (`_get_next_part`, which
asserts the stream is present). -/
def uploadStep (sess : SessionModel) (st : EngineState) :
    Except (BoxErr × EngineState) EngineState :=
  match st.inflightPart with
  | some p => stepWith sess st p
  | none =>
      match st.contentStream with
      | none => Except.error (BoxErr.assertionError, st)
      | some s =>
          let r := fillChunk s.events s.data sess.partSize
          stepWith sess { st with contentStream := some r.2 }
            ⟨st.partArray.length * sess.partSize, r.1⟩

/-- The `while len(self._part_array) < self._upload_session.total_parts` loop
of `ChunkedUploader._upload`, with explicit fuel.  Every successful iteration
appends exactly one record, so `totalParts - partArray.length` units of fuel
make this the exact while loop (proved in the termination theorem). -/
def uploadLoop (sess : SessionModel) : Nat → EngineState →
    Except (BoxErr × EngineState) EngineState
  | 0, st => Except.ok st
  | f + 1, st =>
      if st.partArray.length < sess.totalParts then
        match uploadStep sess st with
        | Except.error e => Except.error e
        | Except.ok st' => uploadLoop sess f st'
      else Except.ok st

/-- `ChunkedUploader._upload`: the while loop run with exact fuel. -/
def uploadFull (sess : SessionModel) (st : EngineState) :
    Except (BoxErr × EngineState) EngineState :=
  uploadLoop sess (sess.totalParts - st.partArray.length) st

/-- `ChunkedUploader.start` (lines 40-52): raise if previously aborted,
run `_upload`, then commit the digest and ordered part list. -/
def start (sess : SessionModel) (st : EngineState) : EngineM CommitResult :=
  if st.isAborted then Except.error (BoxErr.abortedError, st)
  else
    match uploadFull sess st with
    | Except.error e => Except.error e
    | Except.ok st' => Except.ok ((st'.sha1, st'.partArray), st')

/-- The reconciliation `for part in parts` loop of `ChunkedUploader.resume`
(lines 69-74): while an in-flight part is set, append every listed part with
offset at most the in-flight offset; clear the in-flight marker on an exact
offset match; enter every listed part into `_part_definitions`. -/
def reconcileLoop : List PartRecord → EngineState → EngineState
  | [], st => st
  | p :: rest, st =>
      let st1 :=
        match st.inflightPart with
        | some ip =>
            if p.offset ≤ ip.offset then { st with partArray := st.partArray ++ [p] } else st
        | none => st
      let st2 :=
        match st1.inflightPart with
        | some ip => if p.offset = ip.offset then { st1 with inflightPart := none } else st1
        | none => st1
      reconcileLoop rest { st2 with partDefinitions := (p.offset, p) :: st2.partDefinitions }

/-- Lines 64-74 of `ChunkedUploader.resume`: reset `_part_array` to empty and
run the reconciliation loop over the `get_parts()` listing. -/
def resumeReconcile (sess : SessionModel) (st : EngineState) : EngineState :=
  reconcileLoop sess.parts { st with partArray := [] }

/-- `ChunkedUploader.resume` (lines 54-77): raise if previously aborted,
reconcile against the server listing, run `_upload`, then commit. -/
def resume (sess : SessionModel) (st : EngineState) : EngineM CommitResult :=
  if st.isAborted then Except.error (BoxErr.abortedError, st)
  else
    match uploadFull sess (resumeReconcile sess st) with
    | Except.error e => Except.error e
    | Except.ok st' => Except.ok ((st'.sha1, st'.partArray), st')

/-- `ChunkedUploader.abort` (lines 79-91): drop the stream, clear the part
array and the in-flight part, set the aborted flag, then call the
collaborator's remote abort (which may raise) and return its boolean. -/
def abort (sess : SessionModel) (st : EngineState) : EngineM Bool :=
  let st1 := { st with
    contentStream := none
    partArray := []
    inflightPart := none
    isAborted := true }
  if sess.abortRaises then Except.error (BoxErr.networkError, st1)
  else Except.ok (sess.abortResult, st1)

/-- The chunk of `content` that belongs to part `i`: `partSize` bytes starting
at offset `i * partSize` (shorter at the end of the content). -/
def chunkAt (content : List Byte) (partSize i : Nat) : List Byte :=
  (content.drop (i * partSize)).take partSize

/-- The record the upload loop ends up appending for part `i`, given the
function `c` describing which offsets are cached in `_part_definitions` at
loop entry: the cached record if present, otherwise the collaborator's
response to uploading the part's chunk. -/
def recAt (sess : SessionModel) (fs : Nat) (c : Nat → Option PartRecord)
    (content : List Byte) (i : Nat) : PartRecord :=
  match c i with
  | some r => r
  | none => sess.uploadResult (chunkAt content sess.partSize i) (i * sess.partSize) fs

/-- The `upload_part_bytes` invocations the upload loop performs for parts
`j, j+1, ..., j+f-1`: exactly the parts whose offsets are not cached. -/
def callsAt (sess : SessionModel) (c : Nat → Option PartRecord)
    (content : List Byte) (j f : Nat) : List UploadCall :=
  (List.range' j f).filterMap fun i =>
    match c i with
    | some _ => none
    | none => some ⟨i * sess.partSize, chunkAt content sess.partSize i⟩

/-- Stated with the wording of the specification, for comparison with the
code: the "longest consecutive prefix" of a part listing — the longest
initial run whose `i`-th entry sits exactly at offset `i * partSize`
(contiguous, gap-free) while staying at most `cutoff` (the in-flight
offset).  `resume`'s reconciliation is claimed to rebuild `committed_parts`
as this run. -/
def specGapFreeRun (partSize cutoff : Nat) : Nat → List PartRecord → List PartRecord
  | _, [] => []
  | i, p :: rest =>
      if p.offset = i * partSize ∧ p.offset ≤ cutoff then
        p :: specGapFreeRun partSize cutoff (i + 1) rest
      else []

/-- Concrete collaborator used in worked examples: two parts of two bytes,
deterministic upload responses, nothing fails. -/
def c1sessOk : SessionModel :=
  { totalParts := 2
    partSize := 2
    parts := []
    uploadResult := fun cb o _ => ⟨o, cb.length, 7⟩
    uploadFails := fun _ => false
    abortRaises := false
    abortResult := true }

/-- Same collaborator, but `upload_part_bytes` raises at offset 2 (the second
part), without persisting that part server-side. -/
def c1sessFail : SessionModel :=
  { c1sessOk with uploadFails := fun o => o == 2 }

/-- The collaborator as seen by the subsequent `resume` call: uploads succeed
and `get_parts()` reports only the part at offset 0. -/
def c1sessResume : SessionModel :=
  { c1sessOk with parts := [⟨0, 2, 7⟩] }

/-- The engine state after `start` on content `[1,2,3,4]` raises while
uploading the part at offset 2: the chunk `[3,4]` has already been fed to
the digest and the part is still recorded in flight. -/
def c1stFail : EngineState :=
  { contentStream := some ⟨[], []⟩
    fileSize := 4
    partArray := [⟨0, 2, 7⟩]
    sha1 := [1, 2, 3, 4]
    partDefinitions := [(0, ⟨0, 2, 7⟩)]
    inflightPart := some ⟨2, [3, 4]⟩
    isAborted := false
    log := [⟨0, [1, 2]⟩, ⟨2, [3, 4]⟩] }

/-- Final engine state of the uninterrupted `start` run on `[1,2,3,4]`. -/
def c1stOkF : EngineState :=
  { contentStream := some ⟨[], []⟩
    fileSize := 4
    partArray := [⟨0, 2, 7⟩, ⟨2, 2, 7⟩]
    sha1 := [1, 2, 3, 4]
    partDefinitions := [(2, ⟨2, 2, 7⟩), (0, ⟨0, 2, 7⟩)]
    inflightPart := none
    isAborted := false
    log := [⟨0, [1, 2]⟩, ⟨2, [3, 4]⟩] }

/-- Final engine state of the failed-then-resumed run: the digest accumulator
has been fed `[3,4]` twice. -/
def c1stResF : EngineState :=
  { contentStream := some ⟨[], []⟩
    fileSize := 4
    partArray := [⟨0, 2, 7⟩, ⟨2, 2, 7⟩]
    sha1 := [1, 2, 3, 4, 3, 4]
    partDefinitions := [(2, ⟨2, 2, 7⟩), (0, ⟨0, 2, 7⟩), (0, ⟨0, 2, 7⟩)]
    inflightPart := none
    isAborted := false
    log := [⟨0, [1, 2]⟩, ⟨2, [3, 4]⟩, ⟨2, [3, 4]⟩] }

/-- A server part record for part `i` under part size 2, used as the
`get_parts()` listing in the C2 witness. -/
def c2rec : Nat → PartRecord := fun i => ⟨i * 2, 2, 3⟩

/-- Collaborator for the C2 witness: two parts of two bytes, with part 0
already persisted server-side. -/
def c2sess : SessionModel :=
  { c1sessOk with parts := (List.range 1).map c2rec }

/-- Collaborator for the C3 reconciliation examples: part size 5, server
listing holding offsets 0 and 10 (a gap at offset 5). -/
def c3sess : SessionModel :=
  { totalParts := 4
    partSize := 5
    parts := [⟨0, 5, 1⟩, ⟨10, 5, 2⟩]
    uploadResult := fun cb o _ => ⟨o, cb.length, 9⟩
    uploadFails := fun _ => false
    abortRaises := false
    abortResult := true }

/-- Engine state with the part at offset 10 recorded in flight, about to
resume. -/
def c3st : EngineState :=
  { contentStream := some ⟨[], []⟩
    fileSize := 20
    partArray := []
    sha1 := []
    partDefinitions := []
    inflightPart := some ⟨10, []⟩
    isAborted := false
    log := [] }

/-- Collaborator for the C4 example: the server listing holds one part at
offset 0. -/
def c4sess : SessionModel :=
  { c3sess with totalParts := 2, parts := [⟨0, 5, 1⟩] }

/-- Fresh engine state with no in-flight part, about to resume. -/
def c4st : EngineState := initState ⟨[], []⟩ 0

/-- Collaborator for the C5 witness. -/
def c5sess : SessionModel := c1sessOk

/-- The engine state right after a successful `abort` of a fresh engine on a
one-byte file. -/
def c5stAborted : EngineState :=
  { contentStream := none
    fileSize := 1
    partArray := []
    sha1 := []
    partDefinitions := []
    inflightPart := none
    isAborted := true
    log := [] }

/-- Collaborator for the C6 witness: part size 2 and total parts 2, matching
a three-byte file (the last part is short). -/
def c6sess : SessionModel := c1sessOk

/-- Collaborator for the C7 witness: `get_parts()` returns nothing. -/
def c7sess : SessionModel := c1sessOk

/-- Fresh engine state for the C7 witness. -/
def c7st : EngineState := initState ⟨[4, 5, 6], []⟩ 3

/-- Collaborator for the C10 witness: a single one-byte part. -/
def c10sess : SessionModel :=
  { c1sessOk with totalParts := 1, partSize := 1 }

/-- Fresh engine state for the C10 witness. -/
def c10st : EngineState := initState ⟨[5], []⟩ 1

/-- Final engine state of the C10 witness run. -/
def c10stF : EngineState :=
  { contentStream := some ⟨[], []⟩
    fileSize := 1
    partArray := [⟨0, 1, 7⟩]
    sha1 := [5]
    partDefinitions := [(0, ⟨0, 1, 7⟩)]
    inflightPart := none
    isAborted := false
    log := [⟨0, [5]⟩] }

/-- The engine state as `abort` leaves it (lines 86-89 of the source, before
the remote abort call): stream dropped, part array and in-flight marker
cleared, aborted flag set; digest accumulator and definitions cache kept. -/
def clearedState (st : EngineState) : EngineState :=
  { st with
    contentStream := none
    partArray := []
    inflightPart := none
    isAborted := true }

/-- A cooperative stream (empty event script) answers one read with exactly
the requested bytes, fewer at end of data, empty when exhausted. -/
lemma fillChunk_nil (d : List Byte) (n : Nat) :
    fillChunk [] d n = (d.take n, ⟨d.drop n, []⟩) := by
  cases n with
  | zero => simp [fillChunk]
  | succ n => simp [fillChunk]

lemma dictGet_cons_ne {k k2 : Nat} {v : PartRecord} {rest : List (Nat × PartRecord)}
    (h : k ≠ k2) : dictGet k ((k2, v) :: rest) = dictGet k rest := by
  simp [dictGet, h]

lemma dictGet_cons_eq {k : Nat} {v : PartRecord} {rest : List (Nat × PartRecord)} :
    dictGet k ((k, v) :: rest) = some v := by
  simp [dictGet]

lemma dictGet_append_of_ne {k : Nat} {l1 l2 : List (Nat × PartRecord)}
    (h : ∀ e ∈ l1, k ≠ e.1) : dictGet k (l1 ++ l2) = dictGet k l2 := by
  induction l1 with
  | nil => rfl
  | cons e rest ih =>
      obtain ⟨k2, v⟩ := e
      rw [List.cons_append, dictGet_cons_ne (h ⟨k2, v⟩ (List.mem_cons_self _ _))]
      exact ih fun e he => h e (List.mem_cons_of_mem _ he)

/-- Reconciliation with no in-flight part recorded: nothing is appended to
`_part_array`, the marker stays clear, and the whole listing is entered into
`_part_definitions` (later entries shadowing earlier ones for equal keys). -/
lemma reconcileLoop_none (parts : List PartRecord) :
    ∀ st : EngineState, st.inflightPart = none →
      reconcileLoop parts st =
        { st with partDefinitions :=
            (parts.map fun p => (p.offset, p)).reverse ++ st.partDefinitions } := by
  induction parts with
  | nil => intro st h; cases st; simp_all [reconcileLoop]
  | cons p rest ih =>
      intro st h
      obtain ⟨cs, fsz, pa, sh, pd, ifp, ab, lg⟩ := st
      simp only [EngineState.inflightPart] at h
      subst h
      have hstep : reconcileLoop (p :: rest) ⟨cs, fsz, pa, sh, pd, none, ab, lg⟩ =
          reconcileLoop rest ⟨cs, fsz, pa, sh, (p.offset, p) :: pd, none, ab, lg⟩ := by
        simp [reconcileLoop]
      rw [hstep, ih ⟨cs, fsz, pa, sh, (p.offset, p) :: pd, none, ab, lg⟩ rfl]
      simp

/-- Reconciliation with an in-flight part recorded: `_part_array` receives
the listed parts up to and including the first whose offset equals the
in-flight offset (the whole listing if none does), filtered to offsets at
most the in-flight offset; the marker is cleared iff the listing holds an
exact offset match; the whole listing goes into `_part_definitions`. -/
lemma reconcileLoop_some (parts : List PartRecord) :
    ∀ (st : EngineState) (ip : InflightPart), st.inflightPart = some ip →
      reconcileLoop parts st =
        { st with
          partArray := st.partArray ++
            (parts.take (parts.findIdx (fun p => p.offset == ip.offset) + 1)).filter
              (fun p => decide (p.offset ≤ ip.offset))
          inflightPart :=
            if parts.any (fun p => p.offset == ip.offset) then none else some ip
          partDefinitions :=
            (parts.map fun p => (p.offset, p)).reverse ++ st.partDefinitions } := by
  induction parts with
  | nil =>
      intro st ip h
      cases st
      simp_all [reconcileLoop]
  | cons p rest ih =>
      intro st ip h
      obtain ⟨cs, fsz, pa, sh, pd, ifp, ab, lg⟩ := st
      simp only [EngineState.inflightPart] at h
      subst h
      by_cases heq : p.offset = ip.offset
      · -- exact match: appended, then the marker is cleared for the rest
        have hle : p.offset ≤ ip.offset := le_of_eq heq
        have hstep : reconcileLoop (p :: rest) ⟨cs, fsz, pa, sh, pd, some ip, ab, lg⟩ =
            reconcileLoop rest ⟨cs, fsz, pa ++ [p], sh, (p.offset, p) :: pd, none, ab, lg⟩ := by
          simp [reconcileLoop, hle, heq]
        rw [hstep, reconcileLoop_none rest _ rfl]
        have hbeq : (p.offset == ip.offset) = true := by simp [heq]
        simp only [List.findIdx_cons, List.any_cons, hbeq, cond_true, Bool.true_or, if_pos]
        simp [List.take_cons, List.filter_cons, hle, List.reverse_cons, List.append_assoc]
      · by_cases hle : p.offset ≤ ip.offset
        · -- below the in-flight offset: appended, marker kept
          have hstep : reconcileLoop (p :: rest) ⟨cs, fsz, pa, sh, pd, some ip, ab, lg⟩ =
              reconcileLoop rest
                ⟨cs, fsz, pa ++ [p], sh, (p.offset, p) :: pd, some ip, ab, lg⟩ := by
            simp [reconcileLoop, hle, heq]
          rw [hstep, ih ⟨cs, fsz, pa ++ [p], sh, (p.offset, p) :: pd, some ip, ab, lg⟩ ip rfl]
          have hbeq : (p.offset == ip.offset) = false := by simp [heq]
          simp only [List.findIdx_cons, List.any_cons, hbeq, cond_false, Bool.false_or]
          simp [List.take_cons, List.filter_cons, hle, List.reverse_cons, List.append_assoc]
        · -- above the in-flight offset: skipped, marker kept
          have hstep : reconcileLoop (p :: rest) ⟨cs, fsz, pa, sh, pd, some ip, ab, lg⟩ =
              reconcileLoop rest ⟨cs, fsz, pa, sh, (p.offset, p) :: pd, some ip, ab, lg⟩ := by
            simp [reconcileLoop, hle, heq]
          rw [hstep, ih ⟨cs, fsz, pa, sh, (p.offset, p) :: pd, some ip, ab, lg⟩ ip rfl]
          have hbeq : (p.offset == ip.offset) = false := by simp [heq]
          simp only [List.findIdx_cons, List.any_cons, hbeq, cond_false, Bool.false_or]
          simp [List.take_cons, List.filter_cons, hle, List.reverse_cons, List.append_assoc]

lemma mul_ne_of_ne {i m ps : Nat} (hps : 0 < ps) (h : i ≠ m) : i * ps ≠ m * ps :=
  fun he => h (Nat.eq_of_mul_eq_mul_right hps he)

lemma take_chunk_succ (content : List Byte) (ps j f : Nat) :
    (content.drop (j * ps)).take ((f + 1) * ps) =
      (content.drop (j * ps)).take ps ++ (content.drop ((j + 1) * ps)).take (f * ps) := by
  have h1 : (f + 1) * ps = ps + f * ps := by ring
  have h2 : (j + 1) * ps = j * ps + ps := by ring
  rw [h1, List.take_add, List.drop_drop, ← h2]

/-- Master run lemma for the upload loop on a cooperative stream.  From a
state holding `j` committed parts, a clear in-flight slot, and a stream
positioned at offset `j * part_size` of `content`, with `c` describing the
cached record (if any) per part index and no upload failures on the uncached
parts, the loop with exact fuel commits every remaining part: cached parts
are reused without an upload call, uncached parts are uploaded, every chunk
is fed to the digest, and the state evolves to the displayed closed form. -/
lemma uploadLoop_run (sess : SessionModel) (content : List Byte) (fs : Nat)
    (c : Nat → Option PartRecord) (hps : 0 < sess.partSize) :
    ∀ (f j : Nat) (st : EngineState),
      st.partArray.length = j →
      j + f = sess.totalParts →
      st.fileSize = fs →
      st.contentStream = some ⟨content.drop (j * sess.partSize), []⟩ →
      st.inflightPart = none →
      (∀ i, j ≤ i → i < sess.totalParts →
        dictGet (i * sess.partSize) st.partDefinitions = c i) →
      (∀ i, j ≤ i → i < sess.totalParts → c i = none →
        sess.uploadFails (i * sess.partSize) = false) →
      uploadLoop sess f st = Except.ok
        { st with
          contentStream := some ⟨content.drop (sess.totalParts * sess.partSize), []⟩
          partArray := st.partArray ++ (List.range' j f).map (recAt sess fs c content)
          sha1 := st.sha1 ++ (content.drop (j * sess.partSize)).take (f * sess.partSize)
          partDefinitions :=
            ((List.range' j f).map fun i =>
              (i * sess.partSize, recAt sess fs c content i)).reverse ++ st.partDefinitions
          inflightPart := none
          log := st.log ++ callsAt sess c content j f } := by
  intro f
  induction f with
  | zero =>
      intro j st hlen hjf hfs hstream hinf hdict hfail
      obtain ⟨cs, fsz, pa, sh, pd, ifp, ab, lg⟩ := st
      dsimp only at hlen hfs hstream hinf
      subst cs
      subst ifp
      subst fsz
      subst j
      have hjT : pa.length = sess.totalParts := by omega
      rw [← hjT]
      simp [uploadLoop, callsAt]
  | succ f ih =>
      intro j st hlen hjf hfs hstream hinf hdict hfail
      obtain ⟨cs, fsz, pa, sh, pd, ifp, ab, lg⟩ := st
      dsimp only at hlen hfs hstream hinf hdict
      subst cs
      subst ifp
      subst fsz
      subst j
      have hj : pa.length < sess.totalParts := by omega
      have hdj : dictGet (pa.length * sess.partSize) pd = c pa.length :=
        hdict pa.length (le_refl _) hj
      have hdrop : List.drop sess.partSize
          (List.drop (pa.length * sess.partSize) content) =
          List.drop ((pa.length + 1) * sess.partSize) content := by
        rw [List.drop_drop, Nat.succ_mul]
      have hchunk : (List.drop (pa.length * sess.partSize) content).take sess.partSize =
          chunkAt content sess.partSize pa.length := rfl
      cases hc : c pa.length with
      | some rec =>
          have hone : uploadLoop sess (f + 1)
                ⟨some ⟨List.drop (pa.length * sess.partSize) content, []⟩,
                  fs, pa, sh, pd, none, ab, lg⟩ =
              uploadLoop sess f
                ⟨some ⟨List.drop ((pa.length + 1) * sess.partSize) content, []⟩,
                  fs, pa ++ [rec], sh ++ chunkAt content sess.partSize pa.length,
                  (pa.length * sess.partSize, rec) :: pd, none, ab, lg⟩ := by
            rw [uploadLoop]
            rw [if_pos hj]
            simp only [uploadStep, stepWith, finishStep, fillChunk_nil]
            rw [hdj, hc, hdrop, hchunk]
          rw [hone]
          rw [ih (pa.length + 1)
                ⟨some ⟨List.drop ((pa.length + 1) * sess.partSize) content, []⟩,
                  fs, pa ++ [rec], sh ++ chunkAt content sess.partSize pa.length,
                  (pa.length * sess.partSize, rec) :: pd, none, ab, lg⟩
                (by simp) (by omega) rfl rfl rfl
                (fun i hi1 hi2 => by
                  dsimp only
                  rw [dictGet_cons_ne (mul_ne_of_ne hps (by omega))]
                  exact hdict i (by omega) hi2)
                (fun i hi1 hi2 => hfail i (by omega) hi2)]
          refine congrArg Except.ok ?_
          have hrange : List.range' pa.length (f + 1) =
              pa.length :: List.range' (pa.length + 1) f := List.range'_succ _ _ _
          have hrec : recAt sess fs c content pa.length = rec := by
            simp [recAt, hc]
          have hcalls : callsAt sess c content pa.length (f + 1) =
              callsAt sess c content (pa.length + 1) f := by
            simp [callsAt, hrange, List.filterMap_cons, hc]
          dsimp only
          rw [EngineState.mk.injEq]
          refine ⟨rfl, rfl, ?_, ?_, ?_, rfl, rfl, ?_⟩
          · rw [hrange]
            simp [hrec, List.append_assoc]
          · rw [take_chunk_succ content sess.partSize pa.length f, hchunk]
            simp [List.append_assoc]
          · rw [hrange]
            simp [hrec, List.reverse_cons, List.append_assoc]
          · rw [hcalls]
      | none =>
          have hfl : sess.uploadFails (pa.length * sess.partSize) = false :=
            hfail pa.length (le_refl _) hj hc
          have hone : uploadLoop sess (f + 1)
                ⟨some ⟨List.drop (pa.length * sess.partSize) content, []⟩,
                  fs, pa, sh, pd, none, ab, lg⟩ =
              uploadLoop sess f
                ⟨some ⟨List.drop ((pa.length + 1) * sess.partSize) content, []⟩,
                  fs,
                  pa ++ [sess.uploadResult (chunkAt content sess.partSize pa.length)
                    (pa.length * sess.partSize) fs],
                  sh ++ chunkAt content sess.partSize pa.length,
                  (pa.length * sess.partSize,
                    sess.uploadResult (chunkAt content sess.partSize pa.length)
                      (pa.length * sess.partSize) fs) :: pd,
                  none, ab, lg ++ [UploadCall.mk (pa.length * sess.partSize)
                    (chunkAt content sess.partSize pa.length)]⟩ := by
            rw [uploadLoop]
            rw [if_pos hj]
            simp only [uploadStep, stepWith, finishStep, fillChunk_nil]
            rw [hdj, hc, hfl, hdrop, hchunk]
            simp
          rw [hone]
          rw [ih (pa.length + 1)
                ⟨some ⟨List.drop ((pa.length + 1) * sess.partSize) content, []⟩,
                  fs,
                  pa ++ [sess.uploadResult (chunkAt content sess.partSize pa.length)
                    (pa.length * sess.partSize) fs],
                  sh ++ chunkAt content sess.partSize pa.length,
                  (pa.length * sess.partSize,
                    sess.uploadResult (chunkAt content sess.partSize pa.length)
                      (pa.length * sess.partSize) fs) :: pd,
                  none, ab, lg ++ [UploadCall.mk (pa.length * sess.partSize)
                    (chunkAt content sess.partSize pa.length)]⟩
                (by simp) (by omega) rfl rfl rfl
                (fun i hi1 hi2 => by
                  dsimp only
                  rw [dictGet_cons_ne (mul_ne_of_ne hps (by omega))]
                  exact hdict i (by omega) hi2)
                (fun i hi1 hi2 => hfail i (by omega) hi2)]
          refine congrArg Except.ok ?_
          have hrange : List.range' pa.length (f + 1) =
              pa.length :: List.range' (pa.length + 1) f := List.range'_succ _ _ _
          have hrec : recAt sess fs c content pa.length =
              sess.uploadResult (chunkAt content sess.partSize pa.length)
                (pa.length * sess.partSize) fs := by
            simp [recAt, hc]
          have hcalls : callsAt sess c content pa.length (f + 1) =
              UploadCall.mk (pa.length * sess.partSize)
                  (chunkAt content sess.partSize pa.length) ::
                callsAt sess c content (pa.length + 1) f := by
            simp [callsAt, hrange, List.filterMap_cons, hc]
          dsimp only
          rw [EngineState.mk.injEq]
          refine ⟨rfl, rfl, ?_, ?_, ?_, rfl, rfl, ?_⟩
          · rw [hrange]
            simp [hrec, List.append_assoc]
          · rw [take_chunk_succ content sess.partSize pa.length f, hchunk]
            simp [List.append_assoc]
          · rw [hrange]
            simp [hrec, List.reverse_cons, List.append_assoc]
          · rw [hcalls]
            simp [List.append_assoc]

/-- A successful `stepWith` appends exactly one record to `_part_array`. -/
lemma stepWith_length (sess : SessionModel) (st : EngineState) (p : InflightPart)
    (st' : EngineState) (h : stepWith sess st p = Except.ok st') :
    st'.partArray.length = st.partArray.length + 1 := by
  obtain ⟨cs, fsz, pa, sh, pd, ifp, ab, lg⟩ := st
  dsimp only [stepWith, finishStep] at h
  cases hd : dictGet p.offset pd with
  | some rec =>
      rw [hd] at h
      simp only [Except.ok.injEq] at h
      subst h
      simp
  | none =>
      rw [hd] at h
      by_cases hf : sess.uploadFails p.offset = true
      · rw [if_pos hf] at h
        simp at h
      · rw [if_neg hf] at h
        simp only [Except.ok.injEq] at h
        subst h
        simp

/-- A successful iteration of the upload loop appends exactly one record. -/
lemma uploadStep_length (sess : SessionModel) (u u' : EngineState)
    (h : uploadStep sess u = Except.ok u') :
    u'.partArray.length = u.partArray.length + 1 := by
  obtain ⟨cs, fsz, pa, sh, pd, ifp, ab, lg⟩ := u
  cases ifp with
  | some p =>
      dsimp only [uploadStep] at h
      exact stepWith_length sess _ p u' h
  | none =>
      cases cs with
      | none =>
          dsimp only [uploadStep] at h
          simp at h
      | some s =>
          dsimp only [uploadStep] at h
          have := stepWith_length sess _ _ u' h
          simpa using this

/-- Any fuel at least `totalParts - partArray.length` gives the upload loop
the same result: the fuel bound is exact, i.e. the Python `while` loop runs
exactly that many iterations. -/
lemma uploadLoop_fuel (sess : SessionModel) :
    ∀ (f g : Nat) (st : EngineState),
      sess.totalParts - st.partArray.length ≤ f →
      sess.totalParts - st.partArray.length ≤ g →
      uploadLoop sess f st = uploadLoop sess g st := by
  intro f
  induction f with
  | zero =>
      intro g st hf hg
      have hT : sess.totalParts ≤ st.partArray.length := by omega
      cases g with
      | zero => rfl
      | succ g =>
          have h2 : uploadLoop sess (g + 1) st = Except.ok st := by
            rw [uploadLoop, if_neg (by omega)]
          rw [h2]
          rfl
  | succ f ihf =>
      intro g st hf hg
      by_cases hlt : st.partArray.length < sess.totalParts
      · obtain ⟨g', rfl⟩ : ∃ g2, g = g2 + 1 := ⟨g - 1, by omega⟩
        rw [uploadLoop, if_pos hlt]
        rw [uploadLoop, if_pos hlt]
        cases hstep : uploadStep sess st with
        | error e => rfl
        | ok st' =>
            have hl := uploadStep_length sess st st' hstep
            exact ihf g' st' (by omega) (by omega)
      · rw [uploadLoop, if_neg hlt]
        cases g with
        | zero => rfl
        | succ g' => rw [uploadLoop, if_neg hlt]

/-- With exact fuel, a successful run of the upload loop ends with exactly
`totalParts` committed parts. -/
lemma uploadLoop_length (sess : SessionModel) :
    ∀ (f : Nat) (st stF : EngineState),
      st.partArray.length + f = sess.totalParts →
      uploadLoop sess f st = Except.ok stF →
      stF.partArray.length = sess.totalParts := by
  intro f
  induction f with
  | zero =>
      intro st stF hlen h
      have hst : st = stF := by simpa [uploadLoop] using h
      subst hst
      omega
  | succ f ihf =>
      intro st stF hlen h
      have hlt : st.partArray.length < sess.totalParts := by omega
      rw [uploadLoop, if_pos hlt] at h
      cases hstep : uploadStep sess st with
      | error e => rw [hstep] at h; simp at h
      | ok st' =>
          rw [hstep] at h
          exact ihf st' stF (by have := uploadStep_length sess st st' hstep; omega) h

/-- Claim C8: chunk assembly reads from the stream until `part_size` bytes
are accumulated or the stream signals true exhaustion; `None` ("try again")
reads never terminate assembly early — removing all of them from the event
script changes neither the assembled chunk nor the remaining stream data. -/
theorem c8_not_ready_reads_harmless :
    ∀ (evs : List ReadEvent) (data : List Byte) (n : Nat),
      (fillChunk evs data n).1 = (fillChunk (evs.filter isRealRead) data n).1 ∧
      (fillChunk evs data n).2.data = (fillChunk (evs.filter isRealRead) data n).2.data := by
  intro evs
  induction evs with
  | nil => intro data n; exact ⟨rfl, rfl⟩
  | cons e rest ih =>
      intro data n
      cases n with
      | zero => cases e <;> simp [fillChunk, isRealRead, List.filter_cons]
      | succ n =>
          cases e with
          | notReady =>
              simpa [fillChunk, isRealRead, List.filter_cons] using ih data (n + 1)
          | give k =>
              by_cases hg : (data.take (min k (n + 1))).isEmpty
              · simp [fillChunk, isRealRead, List.filter_cons, hg]
              · have hrec := ih (data.drop (min k (n + 1)))
                  (n + 1 - (data.take (min k (n + 1))).length)
                simp only [fillChunk, List.filter_cons, isRealRead, if_neg hg]
                exact ⟨by rw [hrec.1], by rw [hrec.2]⟩

/-- Claim C9: `abort` clears the content stream, the committed-part list and
the in-flight part and sets the aborted flag before the collaborator's remote
abort runs, so even when the remote call raises the engine state is already
the cleared, aborted one; the definitions cache and the digest accumulator
are left unchanged. -/
theorem c9_abort_clears_before_remote (sess : SessionModel) (st : EngineState) :
    abort sess st =
      (if sess.abortRaises then
        Except.error (BoxErr.networkError, clearedState st)
      else
        Except.ok (sess.abortResult, clearedState st)) ∧
    (clearedState st).partDefinitions = st.partDefinitions ∧
    (clearedState st).sha1 = st.sha1 :=
  ⟨rfl, rfl, rfl⟩

/-- Claim C5: once `abort()` has returned, the engine is terminally aborted:
any later `start()` or `resume()` raises the aborted-state error and leaves
the state untouched, and a second `abort()` is safe — it re-invokes the
collaborator's remote abort and returns its boolean result. -/
theorem c5_abort_terminal (sess1 sess2 sess3 : SessionModel) (st st1 : EngineState)
    (b : Bool) (h : abort sess1 st = Except.ok (b, st1)) :
    st1.isAborted = true ∧
    start sess2 st1 = Except.error (BoxErr.abortedError, st1) ∧
    resume sess2 st1 = Except.error (BoxErr.abortedError, st1) ∧
    abort sess3 st1 =
      (if sess3.abortRaises then Except.error (BoxErr.networkError, st1)
       else Except.ok (sess3.abortResult, st1)) := by
  by_cases hr : sess1.abortRaises = true
  · exact absurd h (by simp [abort, hr])
  · have h1 : st1 = clearedState st := by
      simp only [abort, if_neg hr, Except.ok.injEq, Prod.mk.injEq] at h
      exact h.2.symm
    subst h1
    obtain ⟨cs, fsz, pa, sh, pd, ifp, ab, lg⟩ := st
    refine ⟨rfl, rfl, rfl, ?_⟩
    by_cases h3 : sess3.abortRaises = true <;> simp [abort, clearedState, h3]

/-- Witness for C5 at a concrete input. -/
theorem c5_abort_terminal_witness :
    abort c5sess (initState ⟨[1], []⟩ 1) = Except.ok (true, c5stAborted) ∧
    (c5stAborted.isAborted = true ∧
     start c5sess c5stAborted = Except.error (BoxErr.abortedError, c5stAborted) ∧
     resume c5sess c5stAborted = Except.error (BoxErr.abortedError, c5stAborted) ∧
     abort c5sess c5stAborted =
       (if c5sess.abortRaises then Except.error (BoxErr.networkError, c5stAborted)
        else Except.ok (c5sess.abortResult, c5stAborted))) :=
  ⟨rfl, c5_abort_terminal c5sess c5sess c5sess (initState ⟨[1], []⟩ 1) c5stAborted true rfl⟩

/-- Claim C7: `resume()` with zero parts uploaded (empty `get_parts()`
listing, no in-flight part, empty committed list) behaves identically to
`start()`: the whole outcome coincides — same upload calls (the ghost log is
part of the state), same digest and part list passed to commit, same
returned file object, same final state. -/
theorem c7_resume_on_fresh_equals_start (sess : SessionModel) (st : EngineState)
    (hp : sess.parts = []) (ha : st.partArray = []) :
    resume sess st = start sess st := by
  obtain ⟨cs, fsz, pa, sh, pd, ifp, ab, lg⟩ := st
  dsimp only at ha
  subst ha
  have hrec : resumeReconcile sess ⟨cs, fsz, [], sh, pd, ifp, ab, lg⟩ =
      ⟨cs, fsz, [], sh, pd, ifp, ab, lg⟩ := by
    simp [resumeReconcile, hp, reconcileLoop]
  simp only [resume, start, hrec]

/-- Witness for C7 at a concrete input. -/
theorem c7_resume_on_fresh_equals_start_witness :
    c7sess.parts = [] ∧ c7st.partArray = [] ∧ resume c7sess c7st = start c7sess c7st :=
  ⟨rfl, rfl, c7_resume_on_fresh_equals_start c7sess c7st rfl rfl⟩

/-- Claim C3 (counterexample to the claim as stated): with the part at
offset 10 in flight and the server listing `[offset 0, offset 10]` (a gap at
offset 5, part size 5), the code rebuilds `committed_parts` as both listed
parts — not as the longest gap-free consecutive prefix with offsets at most
the in-flight offset, which stops at `[offset 0]`. -/
theorem c3_counterexample :
    (resumeReconcile c3sess c3st).partArray ≠
      specGapFreeRun c3sess.partSize 10 0 c3sess.parts := by
  decide

/-- Claim C3 (amended): when `resume()` runs with an in-flight part recorded,
`committed_parts` is rebuilt as the listed parts, in listing order, up to and
including the first part whose offset equals the in-flight offset (the whole
listing if none does), filtered to offsets at most the in-flight offset — no
gap-freeness check is applied; the in-flight marker is cleared iff some
listed part's offset exactly equals the in-flight offset; every listed part
is entered into the offset-keyed definitions cache regardless of
contiguity. -/
theorem c3_reconcile_with_inflight (sess : SessionModel) (st : EngineState)
    (ip : InflightPart) (h : st.inflightPart = some ip) :
    (resumeReconcile sess st).partArray =
      (sess.parts.take (sess.parts.findIdx (fun p => p.offset == ip.offset) + 1)).filter
        (fun p => decide (p.offset ≤ ip.offset)) ∧
    (resumeReconcile sess st).inflightPart =
      (if sess.parts.any (fun p => p.offset == ip.offset) then none else some ip) ∧
    (resumeReconcile sess st).partDefinitions =
      (sess.parts.map fun p => (p.offset, p)).reverse ++ st.partDefinitions := by
  have hrec := reconcileLoop_some sess.parts { st with partArray := [] } ip (by simpa using h)
  refine ⟨?_, ?_, ?_⟩ <;> simp [resumeReconcile, hrec]

/-- Witness for the amended C3 at a concrete input. -/
theorem c3_reconcile_with_inflight_witness :
    c3st.inflightPart = some ⟨10, []⟩ ∧
    ((resumeReconcile c3sess c3st).partArray =
      (c3sess.parts.take
          (c3sess.parts.findIdx (fun p => p.offset == (10 : Nat)) + 1)).filter
        (fun p => decide (p.offset ≤ (10 : Nat))) ∧
     (resumeReconcile c3sess c3st).inflightPart =
      (if c3sess.parts.any (fun p => p.offset == (10 : Nat)) then none
       else some ⟨10, []⟩) ∧
     (resumeReconcile c3sess c3st).partDefinitions =
      (c3sess.parts.map fun p => (p.offset, p)).reverse ++ c3st.partDefinitions) :=
  ⟨rfl, c3_reconcile_with_inflight c3sess c3st ⟨10, []⟩ rfl⟩

/-- Claim C4 (counterexample to the claim as stated): with no in-flight part
recorded and the server listing `[offset 0]`, `resume()`'s reconciliation
leaves the committed-parts list empty — it is not rebuilt from the full
returned listing. -/
theorem c4_counterexample :
    (resumeReconcile c4sess c4st).partArray ≠ c4sess.parts := by
  decide

/-- Claim C4 (amended): when `resume()` runs with no in-flight part recorded,
the committed-parts list is rebuilt empty (no listed part is carried into
it), while the definitions cache is populated with every returned part keyed
by offset; previously uploaded parts are then skipped only through that
cache during the upload loop. -/
theorem c4_reconcile_without_inflight (sess : SessionModel) (st : EngineState)
    (h : st.inflightPart = none) :
    resumeReconcile sess st =
      { st with
        partArray := []
        partDefinitions :=
          (sess.parts.map fun p => (p.offset, p)).reverse ++ st.partDefinitions } := by
  have hrec := reconcileLoop_none sess.parts { st with partArray := [] } (by simpa using h)
  simp [resumeReconcile, hrec]

/-- Witness for the amended C4 at a concrete input. -/
theorem c4_reconcile_without_inflight_witness :
    c4st.inflightPart = none ∧
    resumeReconcile c4sess c4st =
      { c4st with
        partArray := []
        partDefinitions :=
          (c4sess.parts.map fun p => (p.offset, p)).reverse ++ c4st.partDefinitions } :=
  ⟨rfl, c4_reconcile_without_inflight c4sess c4st rfl⟩

/-- Claim C10: every successful iteration of the upload loop appends exactly
one record to the committed-parts list, so a successful `_upload` run ends
with exactly `total_parts` committed parts after exactly
`total_parts - initial count` iterations: any fuel at least that exact count
(the model's stand-in for the unbounded `while`) yields the same result.
Stream exhaustion never stalls the loop — short or empty chunks are hashed
and uploaded like any others, as the model's step function is total. -/
theorem c10_loop_iteration_count (sess : SessionModel) (st stF : EngineState)
    (h1 : st.partArray.length ≤ sess.totalParts)
    (h2 : uploadFull sess st = Except.ok stF) :
    stF.partArray.length = sess.totalParts ∧
    (∀ f, sess.totalParts - st.partArray.length ≤ f →
      uploadLoop sess f st = Except.ok stF) ∧
    (∀ u u', uploadStep sess u = Except.ok u' →
      u'.partArray.length = u.partArray.length + 1) := by
  refine ⟨?_, ?_, fun u u' h => uploadStep_length sess u u' h⟩
  · exact uploadLoop_length sess _ st stF (by omega) h2
  · intro f hf
    calc uploadLoop sess f st
        = uploadLoop sess (sess.totalParts - st.partArray.length) st :=
          uploadLoop_fuel sess f _ st hf (le_refl _)
      _ = Except.ok stF := h2

/-- Witness for C10 at a concrete input. -/
theorem c10_loop_iteration_count_witness :
    c10st.partArray.length ≤ c10sess.totalParts ∧
    (c10stF.partArray.length = c10sess.totalParts ∧
     (∀ f, c10sess.totalParts - c10st.partArray.length ≤ f →
       uploadLoop c10sess f c10st = Except.ok c10stF) ∧
     (∀ u u', uploadStep c10sess u = Except.ok u' →
       u'.partArray.length = u.partArray.length + 1)) :=
  ⟨by decide, c10_loop_iteration_count c10sess c10st c10stF (by decide) rfl⟩

/-- Looking up offset `i * ps` in the definitions cache built from a server
listing of parts `0..k` (offsets `0, ps, ..., k*ps`) finds part `i` exactly
when `i ≤ k`. -/
lemma dictGet_range_listing (r : Nat → PartRecord) (ps : Nat) (hps : 0 < ps)
    (hr : ∀ i, (r i).offset = i * ps) :
    ∀ (k i : Nat),
      dictGet (i * ps) ((((List.range (k + 1)).map r).map fun p => (p.offset, p)).reverse) =
        (if i ≤ k then some (r i) else none) := by
  intro k
  induction k with
  | zero =>
      intro i
      have hr1 : List.range (0 + 1) = [0] := rfl
      by_cases hi : i = 0
      · subst hi
        simp [hr1, dictGet, hr 0]
      · have hne : i * ps ≠ (r 0).offset := by
          rw [hr 0, Nat.zero_mul]
          exact Nat.mul_ne_zero hi (by omega)
        rw [hr1]
        simp only [List.map_cons, List.map_nil, List.reverse_cons, List.reverse_nil,
          List.nil_append, List.singleton_append]
        rw [dictGet_cons_ne hne]
        simp [dictGet, hi]
  | succ k ihk =>
      intro i
      rw [List.range_succ, List.map_append, List.map_append, List.reverse_append]
      simp only [List.map_cons, List.map_nil, List.reverse_cons, List.reverse_nil,
        List.nil_append, List.singleton_append]
      by_cases hi : i = k + 1
      · subst hi
        rw [hr (k + 1)]
        simp [dictGet]
      · rw [hr (k + 1), dictGet_cons_ne (mul_ne_of_ne hps hi), ihk i]
        by_cases hik : i ≤ k
        · rw [if_pos hik, if_pos (by omega)]
        · rw [if_neg hik, if_neg (by omega)]

/-- Claim C6: from a fresh engine on a stream carrying exactly `file_size`
bytes, with `total_parts = ceil(file_size / part_size)` and a conforming
collaborator, a successful `start()` commits exactly `total_parts` parts,
with strictly increasing offsets `i * part_size` covering `[0, file_size)`
without gaps or overlaps — every part of size `part_size` except that the
last may be shorter. -/
theorem c6_commit_part_invariant (sess : SessionModel) (content : List Byte) (fs : Nat)
    (hps : 0 < sess.partSize)
    (hclen : content.length = fs)
    (hT : sess.totalParts = (fs + sess.partSize - 1) / sess.partSize)
    (hfail : ∀ o, sess.uploadFails o = false)
    (hOff : ∀ cb o t, (sess.uploadResult cb o t).offset = o)
    (hSize : ∀ cb o t, (sess.uploadResult cb o t).size = cb.length) :
    ∃ digest parts stF,
      start sess (initState ⟨content, []⟩ fs) = Except.ok ((digest, parts), stF) ∧
      parts.length = sess.totalParts ∧
      parts.map PartRecord.offset =
        (List.range sess.totalParts).map (fun i => i * sess.partSize) ∧
      parts.map PartRecord.size =
        (List.range sess.totalParts).map
          (fun i => min sess.partSize (fs - i * sess.partSize)) := by
  have hrun := uploadLoop_run sess content fs (fun _ => none) hps sess.totalParts 0
      (initState ⟨content, []⟩ fs) rfl (Nat.zero_add _) rfl
      (by simp [initState]) rfl (fun i h1 h2 => rfl) (fun i h1 h2 hc => hfail _)
  have hfull : uploadFull sess (initState ⟨content, []⟩ fs) =
      uploadLoop sess sess.totalParts (initState ⟨content, []⟩ fs) := by
    simp [uploadFull, initState]
  have hstart : start sess (initState ⟨content, []⟩ fs) =
      match uploadLoop sess sess.totalParts (initState ⟨content, []⟩ fs) with
      | Except.error e => Except.error e
      | Except.ok st' => Except.ok ((st'.sha1, st'.partArray), st') := by
    simp only [start]
    rw [if_neg (by simp [initState]), hfull]
  rw [hrun] at hstart
  dsimp only at hstart
  refine ⟨_, _, _, hstart, ?_, ?_, ?_⟩
  · simp [initState]
  · rw [List.range_eq_range']
    simp only [initState, List.nil_append, List.map_map]
    exact List.map_congr_left fun i hi => by simp [recAt, hOff]
  · rw [List.range_eq_range']
    simp only [initState, List.nil_append, List.map_map]
    exact List.map_congr_left fun i hi => by
      simp [recAt, chunkAt, hSize, List.length_take, List.length_drop, hclen]

/-- Witness for C6 at a concrete input: a three-byte file in two parts of
part size two (the last part is one byte). -/
theorem c6_commit_part_invariant_witness :
    0 < c6sess.partSize ∧
    c6sess.totalParts = (3 + c6sess.partSize - 1) / c6sess.partSize ∧
    (∃ digest parts stF,
      start c6sess (initState ⟨[1, 2, 3], []⟩ 3) = Except.ok ((digest, parts), stF) ∧
      parts.length = c6sess.totalParts ∧
      parts.map PartRecord.offset =
        (List.range c6sess.totalParts).map (fun i => i * c6sess.partSize) ∧
      parts.map PartRecord.size =
        (List.range c6sess.totalParts).map
          (fun i => min c6sess.partSize (3 - i * c6sess.partSize))) :=
  ⟨by decide, by decide,
    c6_commit_part_invariant c6sess [1, 2, 3] 3 (by decide) rfl (by decide)
      (fun o => rfl) (fun cb o t => rfl) (fun cb o t => rfl)⟩

/-- Claim C2: when `get_parts()` reports parts `0..k` already present and the
engine resumes fresh (cross-process resume), the upload loop never invokes
`upload_part_bytes` for those offsets — they are recognised through the
offset-keyed definitions cache — yet their bytes are still read from the
local content stream and folded into the rolling digest, so the digest
passed to commit is that of the whole content. -/
theorem c2_skip_uploaded_parts (sess : SessionModel) (content : List Byte)
    (r : Nat → PartRecord) (k fs : Nat)
    (hps : 0 < sess.partSize) (hk : k < sess.totalParts)
    (hparts : sess.parts = (List.range (k + 1)).map r)
    (hr : ∀ i, (r i).offset = i * sess.partSize)
    (hfail : ∀ o, sess.uploadFails o = false)
    (hclen : content.length ≤ sess.totalParts * sess.partSize) :
    ∃ digest parts stF,
      resume sess (initState ⟨content, []⟩ fs) = Except.ok ((digest, parts), stF) ∧
      digest = content ∧
      ∀ e ∈ stF.log, k * sess.partSize < e.offset := by
  have hrc : resumeReconcile sess (initState ⟨content, []⟩ fs) =
      ⟨some ⟨content, []⟩, fs, [], [],
        (sess.parts.map fun p => (p.offset, p)).reverse, none, false, []⟩ := by
    have h0 := reconcileLoop_none sess.parts
      ⟨some ⟨content, []⟩, fs, [], [], [], none, false, []⟩ rfl
    simpa [resumeReconcile, initState] using h0
  have hdict : ∀ i, 0 ≤ i → i < sess.totalParts →
      dictGet (i * sess.partSize) ((sess.parts.map fun p => (p.offset, p)).reverse) =
        (if i ≤ k then some (r i) else none) := by
    intro i h1 h2
    rw [hparts]
    exact dictGet_range_listing r sess.partSize hps hr k i
  have hrun := uploadLoop_run sess content fs
      (fun i => if i ≤ k then some (r i) else none) hps sess.totalParts 0
      ⟨some ⟨content, []⟩, fs, [], [],
        (sess.parts.map fun p => (p.offset, p)).reverse, none, false, []⟩
      rfl (Nat.zero_add _) rfl (by simp) rfl hdict (fun i h1 h2 hc => hfail _)
  have hfull : uploadFull sess
      (⟨some ⟨content, []⟩, fs, [], [],
        (sess.parts.map fun p => (p.offset, p)).reverse, none, false, []⟩ : EngineState) =
      uploadLoop sess sess.totalParts
      ⟨some ⟨content, []⟩, fs, [], [],
        (sess.parts.map fun p => (p.offset, p)).reverse, none, false, []⟩ := by
    simp [uploadFull]
  have hres : resume sess (initState ⟨content, []⟩ fs) =
      match uploadLoop sess sess.totalParts
        (⟨some ⟨content, []⟩, fs, [], [],
          (sess.parts.map fun p => (p.offset, p)).reverse, none, false, []⟩ :
            EngineState) with
      | Except.error e => Except.error e
      | Except.ok st' => Except.ok ((st'.sha1, st'.partArray), st') := by
    simp only [resume]
    rw [if_neg (by simp [initState]), hrc, hfull]
  rw [hrun] at hres
  dsimp only at hres
  refine ⟨_, _, _, hres, ?_, ?_⟩
  · simp [List.take_of_length_le hclen]
  · intro e he
    dsimp only at he
    simp only [List.nil_append, callsAt, List.mem_filterMap] at he
    obtain ⟨i, hi, hei⟩ := he
    by_cases hik : i ≤ k
    · simp [hik] at hei
    · simp only [if_neg hik] at hei
      simp only [Option.some.injEq] at hei
      subst hei
      exact (mul_lt_mul_right hps).mpr (by omega)

/-- Witness for C2 at a concrete input: four bytes in two parts, part 0
already persisted server-side. -/
theorem c2_skip_uploaded_parts_witness :
    0 < c2sess.partSize ∧ 0 < c2sess.totalParts ∧
    (∃ digest parts stF,
      resume c2sess (initState ⟨[1, 2, 3, 4], []⟩ 4) = Except.ok ((digest, parts), stF) ∧
      digest = [1, 2, 3, 4] ∧
      ∀ e ∈ stF.log, 0 * c2sess.partSize < e.offset) :=
  ⟨by decide, by decide,
    c2_skip_uploaded_parts c2sess [1, 2, 3, 4] c2rec 0 4 (by decide) (by decide)
      rfl (fun i => rfl) (fun o => rfl) (by decide)⟩

/-- Claim C1 (refuted by the code; the spec states the intended behaviour):
digest determinism fails when `start()` raises inside `upload_part_bytes`
without the part being persisted server-side.  On content `[1,2,3,4]` with
two two-byte parts, the uninterrupted run feeds `[1,2,3,4]` to the digest;
the run that fails while uploading the part at offset 2 has already fed
`[1,2,3,4]` and retains that part in flight, and `resume()` (with
`get_parts()` reporting only offset 0) feeds the retained chunk `[3,4]` a
second time — the digest handed to commit is that of `[1,2,3,4,3,4]`, so the
offset-2 bytes are folded in twice, not exactly once. -/
theorem c1_digest_duplicated_on_resume :
    start c1sessOk (initState ⟨[1, 2, 3, 4], []⟩ 4) =
      Except.ok (([1, 2, 3, 4], [⟨0, 2, 7⟩, ⟨2, 2, 7⟩]), c1stOkF) ∧
    start c1sessFail (initState ⟨[1, 2, 3, 4], []⟩ 4) =
      Except.error (BoxErr.uploadError, c1stFail) ∧
    resume c1sessResume c1stFail =
      Except.ok (([1, 2, 3, 4, 3, 4], [⟨0, 2, 7⟩, ⟨2, 2, 7⟩]), c1stResF) ∧
    ([1, 2, 3, 4, 3, 4] : List Byte) ≠ [1, 2, 3, 4] :=
  ⟨rfl, rfl, rfl, by decide⟩

end BoxChunked
